import Mathlib

/-
Verification of the vtoa video-to-ASCII converter and player
(src/vtoa/converter.py, src/vtoa/player.py, src/vtoa/cli.py),
shallowly embedded in Lean 4.

Python float arithmetic is modelled exactly over the rationals; the
numpy astype(uint8) cast is modelled as truncation toward zero followed
by reduction modulo 256, which is what numpy does for in-range and
wrapped values alike.  Fallible Python operations (sequence indexing,
float parsing) are modelled with Except.
-/

/-- Python int() applied to a float: truncation toward zero. -/
def pyInt (q : ℚ) : ℤ := if 0 ≤ q then ⌊q⌋ else ⌈q⌉

/-- Error taxonomy used by the embedding; invalidConfig models ValueError
as raised by the CLI, indexError models a Python IndexError, notFound a
FileNotFoundError and sourceUnavailable a RuntimeError. -/
inductive PyErr where
  | indexError
  | invalidConfig
  | notFound
  | sourceUnavailable
  deriving DecidableEq

/-- State of an AsciiConverter after __init__ (converter.py lines 64-78).
The constructor stores the (possibly reversed) character ramp; the invert
flag itself is not retained. -/
structure AsciiConverterCfg where
  chars : List Char
  width : Option ℤ
  height : Option ℤ
  aspect : Option ℚ
  color : Bool
  deriving DecidableEq

/-- AsciiConverter.__init__ (converter.py lines 64-78): reverses the ramp
when invert is set and performs no validation whatsoever. -/
def mkConverter (chars : List Char) (width height : Option ℤ) (aspect : Option ℚ)
    (invert color : Bool) : AsciiConverterCfg :=
  { chars := if invert then chars.reverse else chars
    width := width
    height := height
    aspect := aspect
    color := color }

/-- converter.py line 13. -/
def ASCII_CHARS_DETAILED : List Char := "@%#*+=-:. ".data

/-- converter.py line 62: CHAR_ASPECT_RATIO = 0.5. -/
def CHAR_ASPECT : ℚ := 1 / 2

/-- AsciiConverter.get_terminal_size (converter.py lines 80-84): reserves
one row for the status bar unconditionally. -/
def get_terminal_size (columns lines : ℤ) : ℤ × ℤ := (columns, lines - 1)

/-- The aspect ratio chosen at converter.py lines 98-101: the forced one
when configured, otherwise the frame's native ratio. -/
def effectiveAspect (cfg : AsciiConverterCfg) (frame_width frame_height : ℤ) : ℚ :=
  match cfg.aspect with
  | some a => a
  | none => (frame_width : ℚ) / (frame_height : ℚ)

/-- AsciiConverter.calculate_dimensions (converter.py lines 86-134), with
the terminal bounds passed explicitly (the code queries them from the
terminal; they are external input).  Note the both-explicit branch
returns early and skips the final clamp, and that the code truncates
with int(), not round(). -/
def calculate_dimensions (cfg : AsciiConverterCfg) (frame_width frame_height : ℤ)
    (term_width term_height : ℤ) : ℤ × ℤ :=
  let aspect := effectiveAspect cfg frame_width frame_height
  match cfg.width, cfg.height with
  | some w, some h => (min w term_width, min h term_height)
  | ow, oh =>
    let char_adjusted := aspect / CHAR_ASPECT
    let wh : ℤ × ℤ :=
      match ow, oh with
      | some w, _ =>
        let tw := min w term_width
        (tw, pyInt ((tw : ℚ) / char_adjusted))
      | none, some h =>
        let th := min h term_height
        (pyInt ((th : ℚ) * char_adjusted), th)
      | none, none =>
        let tw := term_width
        let th := pyInt ((tw : ℚ) / char_adjusted)
        if term_height < th then
          (pyInt ((term_height : ℚ) * char_adjusted), term_height)
        else (tw, th)
    (max 1 (min wh.1 term_width), max 1 (min wh.2 term_height))

/-- Dimension resolution exactly as the specification words it (spec.md
section 4.2 steps 4-6 use round-to-nearest); kept separate so the spec
sentence can be compared against calculate_dimensions above. -/
def calculate_dimensions_spec (cfg : AsciiConverterCfg) (frame_width frame_height : ℤ)
    (term_width term_height : ℤ) : ℤ × ℤ :=
  let aspect := effectiveAspect cfg frame_width frame_height
  match cfg.width, cfg.height with
  | some w, some h => (min w term_width, min h term_height)
  | ow, oh =>
    let char_adjusted := aspect / CHAR_ASPECT
    let wh : ℤ × ℤ :=
      match ow, oh with
      | some w, _ =>
        let tw := min w term_width
        (tw, round ((tw : ℚ) / char_adjusted))
      | none, some h =>
        let th := min h term_height
        (round ((th : ℚ) * char_adjusted), th)
      | none, none =>
        let tw := term_width
        let th := round ((tw : ℚ) / char_adjusted)
        if term_height < th then
          (round ((term_height : ℚ) * char_adjusted), term_height)
        else (tw, th)
    (max 1 (min wh.1 term_width), max 1 (min wh.2 term_height))

/-- A default converter: detailed ramp, no explicit dimensions, no forced
aspect ratio, no invert, no color. -/
def defaultCfg : AsciiConverterCfg :=
  mkConverter ASCII_CHARS_DETAILED none none none false false

/-- Mapping of one 8-bit brightness value to a ramp index
(converter.py line 176): the float value v / 255 * (len(chars) - 1) is
cast with numpy astype(uint8), i.e. truncated toward zero and reduced
modulo 256. -/
def rampIndex (rampLen v : ℕ) : ℕ :=
  ((pyInt ((v : ℚ) / 255 * (((rampLen : ℤ) - 1 : ℤ) : ℚ))) % 256).toNat

/-- Python sequence indexing chars[i]: raises IndexError out of range. -/
def lookupGlyph (chars : List Char) (i : ℕ) : Except PyErr Char :=
  if h : i < chars.length then .ok (chars.get ⟨i, h⟩) else .error .indexError

/-- Sequential effectful map, stopping at the first error, as a Python
loop or comprehension over a row/grid does. -/
def mapE (f : α → Except PyErr β) : List α → Except PyErr (List β)
  | [] => .ok []
  | a :: l =>
    match f a with
    | .error e => .error e
    | .ok b =>
      match mapE f l with
      | .error e => .error e
      | .ok bs => .ok (b :: bs)

/-- Decimal digit character (models Python number formatting). -/
def digitChar (k : ℕ) : Char := Char.ofNat (48 + k)

/-- Decimal digits of a natural number, fuel-based. -/
def natDigitsAux : ℕ → ℕ → List Char
  | 0, _ => []
  | fuel + 1, n =>
    if n < 10 then [digitChar n]
    else natDigitsAux fuel (n / 10) ++ [digitChar (n % 10)]

/-- Decimal rendering of a natural number, as an f-string interpolation
of a Python int produces it. -/
def natDigits (n : ℕ) : List Char := natDigitsAux (n + 1) n

/-- rgb_to_ansi (converter.py lines 26-28): true-color foreground escape
sequence. -/
def rgb_to_ansi (r g b : ℕ) : List Char :=
  '\x1b' :: '[' :: '3' :: '8' :: ';' :: '2' :: ';' ::
    (natDigits r ++ ';' :: natDigits g ++ ';' :: natDigits b ++ ['m'])

/-- ANSI_RESET (converter.py line 23). -/
def ANSI_RESET : List Char := ['\x1b', '[', '0', 'm']

/-- One plain output row (converter.py lines 204-207). -/
def plainLine (chars : List Char) (row : List ℕ) : Except PyErr (List Char) :=
  mapE (fun v => lookupGlyph chars (rampIndex chars.length v)) row

/-- List concatenation of the per-cell strings of a row. -/
def catLists : List (List Char) → List Char
  | [] => []
  | l :: ls => l ++ catLists ls

/-- One colored output row (converter.py lines 189-199): every cell is an
escape sequence followed by its glyph, and the row ends with
ANSI_RESET. -/
def colorLine (chars : List Char) (grayRow : List ℕ) (rgbRow : List (ℕ × ℕ × ℕ)) :
    Except PyErr (List Char) :=
  match mapE (fun vc =>
      match lookupGlyph chars (rampIndex chars.length vc.1) with
      | .error e => .error e
      | .ok ch => .ok (rgb_to_ansi vc.2.1 vc.2.2.1 vc.2.2.2 ++ [ch])) (grayRow.zip rgbRow) with
  | .error e => .error e
  | .ok cells => .ok (catLists cells ++ ANSI_RESET)

/-- Output frame record (converter.py lines 36-43); content is kept as a
character list, the rows joined by newline characters. -/
structure AsciiFrame where
  content : List Char
  width : ℤ
  height : ℤ
  timestamp : ℚ
  deriving DecidableEq

/-- Rows joined with a newline separator ("\n".join(lines)). -/
def joinNl : List (List Char) → List Char
  | [] => []
  | [l] => l
  | l :: ls => l ++ '\n' :: joinNl ls

/-- AsciiConverter.frame_to_ascii (converter.py lines 136-216).  The cv2
resampling steps are external input: resizedGray and resizedRgb stand
for cv2.resize of the gray / color frame to the resolved dimensions
(their shape contract is a hypothesis of the theorems).  frameHasColor
models len(frame.shape) == 3. -/
def frame_to_ascii (cfg : AsciiConverterCfg) (frame_width frame_height : ℤ)
    (term_width term_height : ℤ) (resizedGray : List (List ℕ))
    (resizedRgb : List (List (ℕ × ℕ × ℕ))) (frameHasColor : Bool) (timestamp : ℚ) :
    Except PyErr AsciiFrame :=
  let wh := calculate_dimensions cfg frame_width frame_height term_width term_height
  let linesE :=
    if cfg.color && frameHasColor then
      mapE (fun gc => colorLine cfg.chars gc.1 gc.2) (resizedGray.zip resizedRgb)
    else
      mapE (plainLine cfg.chars) resizedGray
  match linesE with
  | .error e => .error e
  | .ok ls => .ok ⟨joinNl ls, wh.1, wh.2, timestamp⟩

/-- Scanner step for counting visible glyphs: inside an ANSI escape
sequence (state true) characters are zero-width and the sequence ends at
the final letter m; outside, an ESC starts a sequence and every other
character is one visible glyph. -/
def visStep (s : Bool × ℕ) (c : Char) : Bool × ℕ :=
  match s with
  | (true, n) => if c = 'm' then (false, n) else (true, n)
  | (false, n) => if c = '\x1b' then (true, n) else (false, n + 1)

def visScan (s : Bool × ℕ) (l : List Char) : Bool × ℕ := l.foldl visStep s

/-- Number of visible glyphs of a rendered row: characters outside ANSI
escape sequences. -/
def visibleGlyphs (l : List Char) : ℕ := (visScan (false, 0) l).2

/-- str.split with a one-character separator. -/
def splitOnChar (sep : Char) : List Char → List (List Char)
  | [] => [[]]
  | c :: cs =>
    match splitOnChar sep cs with
    | [] => [[c]]
    | x :: xs => if c = sep then [] :: x :: xs else (c :: x) :: xs

/-- Decoding a content string back into its lines. -/
def splitNl (l : List Char) : List (List Char) := splitOnChar '\n' l

/-- Numeric value of a list of decimal digit characters. -/
def digitsVal (l : List Char) : ℕ := l.foldl (fun a c => 10 * a + (c.toNat - 48)) 0

def isDigits (l : List Char) : Bool := l.all (fun c => c.isDigit)

def stripSpaces (l : List Char) : List Char :=
  ((l.dropWhile (fun c => c = ' ')).reverse.dropWhile (fun c => c = ' ')).reverse

/-- The Python float() builtin on the decimal-literal subset exercised
here (optional surrounding spaces, optional sign, digits with at most
one decimal point); everything else is rejected, as float() rejects
strings such as abc with ValueError. -/
def pyFloat (s : List Char) : Except Unit ℚ :=
  let t := stripSpaces s
  let su : ℚ × List Char :=
    match t with
    | '-' :: r => (-1, r)
    | '+' :: r => (1, r)
    | _ => (1, t)
  match splitOnChar '.' su.2 with
  | [ip] =>
    if !ip.isEmpty && isDigits ip then .ok (su.1 * (digitsVal ip : ℚ))
    else .error ()
  | [ip, fp] =>
    if (!ip.isEmpty || !fp.isEmpty) && isDigits ip && isDigits fp then
      .ok (su.1 * ((digitsVal ip : ℚ) + (digitsVal fp : ℚ) / (10 : ℚ) ^ fp.length))
    else .error ()
  | _ => .error ()

/-- parse_aspect_ratio (cli.py lines 217-231): splits on a colon when one
is present and divides, otherwise parses a bare decimal; every failure
(unparsable number, wrong number of colon-separated fields, division by
zero) is caught and re-raised as a ValueError, modelled as
invalidConfig. -/
def parseAspect (s : List Char) : Except PyErr ℚ :=
  if ':' ∈ s then
    match splitOnChar ':' s with
    | [w, h] =>
      match pyFloat w, pyFloat h with
      | .ok qw, .ok qh => if qh = 0 then .error .invalidConfig else .ok (qw / qh)
      | _, _ => .error .invalidConfig
    | _ => .error .invalidConfig
  else
    match pyFloat s with
    | .ok q => .ok q
    | .error _ => .error .invalidConfig

/-- AsciiPlayer metadata state (player.py lines 50-54): _fps, _frame_count
and _duration as set by __init__. -/
structure PlayerState where
  fps : ℚ
  frame_count : ℤ
  duration : ℚ
  deriving DecidableEq

/-- The state right after AsciiPlayer.__init__ (player.py lines 52-54):
_fps defaults to 30.0 before any video has been opened. -/
def initPlayer : PlayerState := { fps := 30, frame_count := 0, duration := 0 }

/-- AsciiPlayer._open_video metadata update (player.py lines 65-67):
cap.get(CAP_PROP_FPS) or 30.0, frame count, and the derived duration. -/
def open_video (reported_fps : ℚ) (reported_count : ℤ) (p : PlayerState) : PlayerState :=
  let fps := if reported_fps = 0 then 30 else reported_fps
  { p with fps := fps
           frame_count := reported_count
           duration := if 0 < fps then (reported_count : ℚ) / fps else 0 }

/-- The target frame period 1.0 / fps if fps > 0 else 1.0 / 30.0
(player.py lines 94 and 129). -/
def frameDurationOf (fps : ℚ) : ℚ := if 0 < fps then 1 / fps else 1 / 30

/-- The frame_duration that AsciiPlayer.play computes on entry
(player.py line 129).  It reads self._fps at that moment — before the
frames() generator body has executed, because Python generators run
lazily, so before _open_video has stored the source frame rate. -/
def play_sleep_period (p : PlayerState) : ℚ := frameDurationOf p.fps

/-- End-of-iteration sleep (player.py lines 169-172): sleep for
frame_duration - elapsed if that is positive, else do not sleep. -/
def sleepFor (frame_duration elapsed : ℚ) : ℚ :=
  if 0 < frame_duration - elapsed then frame_duration - elapsed else 0

/-- State of the frames() generator loop (player.py lines 96-112):
the source read position and the running frame index. -/
structure GenState where
  pos : ℕ
  frameIdx : ℕ
  deriving DecidableEq

/-- One iteration of the while-loop in AsciiPlayer.frames. -/
inductive FrameStep where
  | emit (pos frameIdx : ℕ)
  | again (pos frameIdx : ℕ)
  | halt
  deriving DecidableEq

/-- The body of the while-loop in AsciiPlayer.frames (player.py lines
98-112): src p says whether cap.read() succeeds at position p.  On a
failed read with loop enabled the position is reset to 0 and the loop
continues; with loop disabled the loop breaks; on a successful read a
frame is yielded and both counters advance. -/
def frames_step (loop : Bool) (src : ℕ → Bool) (s : GenState) : FrameStep :=
  if src s.pos then .emit (s.pos + 1) (s.frameIdx + 1)
  else if loop then .again 0 0
  else .halt

/-- Running the frames() loop for n iterations: returns how many frames
were yielded and whether the generator terminated within those
iterations. -/
def frames_run (loop : Bool) (src : ℕ → Bool) : ℕ → GenState → ℕ × Bool
  | 0, _ => (0, false)
  | n + 1, s =>
    match frames_step loop src s with
    | .halt => (0, true)
    | .again p i => frames_run loop src n ⟨p, i⟩
    | .emit p i =>
      let r := frames_run loop src n ⟨p, i⟩
      (r.1 + 1, r.2)

/-- Terminal side effects issued by AsciiPlayer.play. -/
inductive TermEvent where
  | hideCursor
  | showCursor
  | clearHome
  | writeContent (s : List Char)
  | writeStatus (frameIdx : ℕ)
  | writeNewline
  | flushOut
  deriving DecidableEq

/-- The per-frame body of the play loop (player.py lines 140-160): clear
and home, write the frame, optionally write the status line, flush. -/
def play_loop (show_status : Bool) : List AsciiFrame → ℕ → List TermEvent
  | [], _ => []
  | f :: fs, i =>
    ([.clearHome, .writeContent f.content] ++
      (if show_status then [.writeStatus i] else []) ++ [.flushOut]) ++
      play_loop show_status fs (i + 1)

/-- AsciiPlayer.play (player.py lines 117-181) as the sequence of
terminal events it emits together with its outcome.  openResult is what
the lazily-run frames() generator produces on its first pull: either the
setup error raised by _open_video, or the list of converted frames.  The
cursor is hidden (line 132) before the generator body has run, and the
finally block (lines 177-181) restores the cursor and writes a newline
on every exit path; a setup error then propagates. -/
def play (openResult : Except PyErr (List AsciiFrame)) (show_status : Bool) :
    List TermEvent × Except PyErr Unit :=
  ([.hideCursor, .flushOut] ++
     (match openResult with
      | .error _ => []
      | .ok fs => play_loop show_status fs 0) ++
     [.showCursor, .writeNewline, .flushOut],
   match openResult with
   | .error e => .error e
   | .ok _ => .ok ())

/-- The glyph a plain cell renders: chars[index], which is total because
the index is in range for every non-empty ramp and 8-bit value. -/
def glyphAt (chars : List Char) (v : ℕ) : Char :=
  chars.getD (rampIndex chars.length v) ' '

/-- The string one colored cell contributes: color escape then glyph. -/
def colorCell (chars : List Char) (vc : ℕ × (ℕ × ℕ × ℕ)) : List Char :=
  rgb_to_ansi vc.2.1 vc.2.2.1 vc.2.2.2 ++ [glyphAt chars vc.1]

lemma pyInt_of_nonneg {q : ℚ} (h : 0 ≤ q) : pyInt q = ⌊q⌋ := if_pos h

lemma calc_dims_bounds_core (cfg : AsciiConverterCfg) (fw fh W H : ℤ)
    (hW : 1 ≤ W) (hH : 1 ≤ H)
    (hw : ∀ x, cfg.width = some x → 1 ≤ x)
    (hh : ∀ x, cfg.height = some x → 1 ≤ x) :
    1 ≤ (calculate_dimensions cfg fw fh W H).1 ∧
      (calculate_dimensions cfg fw fh W H).1 ≤ W ∧
      1 ≤ (calculate_dimensions cfg fw fh W H).2 ∧
      (calculate_dimensions cfg fw fh W H).2 ≤ H := by
  obtain ⟨chars, ow, oh, oa, col⟩ := cfg
  rcases ow with _ | w <;> rcases oh with _ | h <;>
    simp only [calculate_dimensions]
  · exact ⟨le_max_left 1 _, max_le hW (min_le_right _ _),
      le_max_left 1 _, max_le hH (min_le_right _ _)⟩
  · exact ⟨le_max_left 1 _, max_le hW (min_le_right _ _),
      le_max_left 1 _, max_le hH (min_le_right _ _)⟩
  · exact ⟨le_max_left 1 _, max_le hW (min_le_right _ _),
      le_max_left 1 _, max_le hH (min_le_right _ _)⟩
  · have h1 : 1 ≤ w := hw w rfl
    have h2 : 1 ≤ h := hh h rfl
    exact ⟨le_min h1 hW, min_le_right _ _, le_min h2 hH, min_le_right _ _⟩

/-- C2: for every terminal bound (cols, rows) with cols, rows ≥ 1, every
valid source (positive pixel dimensions, hence aspect ratio a > 0) and
every PlaybackConfig whose optional explicit width/height are positive
and whose optional forced aspect ratio is positive, the dimension
resolver output (w, h) satisfies 1 ≤ w ≤ cols and 1 ≤ h ≤ rows. -/
theorem calculate_dimensions_bounds (cfg : AsciiConverterCfg) (fw fh W H : ℤ)
    (hW : 1 ≤ W) (hH : 1 ≤ H) (hfw : 0 < fw) (hfh : 0 < fh)
    (ha : ∀ a, cfg.aspect = some a → 0 < a)
    (hw : ∀ x, cfg.width = some x → 1 ≤ x)
    (hh : ∀ x, cfg.height = some x → 1 ≤ x) :
    1 ≤ (calculate_dimensions cfg fw fh W H).1 ∧
      (calculate_dimensions cfg fw fh W H).1 ≤ W ∧
      1 ≤ (calculate_dimensions cfg fw fh W H).2 ∧
      (calculate_dimensions cfg fw fh W H).2 ≤ H :=
  calc_dims_bounds_core cfg fw fh W H hW hH hw hh

/-- Witness for C2 at the end-to-end scenario input (source 16x9,
terminal bounds (40, 9)). -/
theorem calculate_dimensions_bounds_witness :
    1 ≤ (calculate_dimensions defaultCfg 16 9 40 9).1 ∧
      (calculate_dimensions defaultCfg 16 9 40 9).1 ≤ 40 ∧
      1 ≤ (calculate_dimensions defaultCfg 16 9 40 9).2 ∧
      (calculate_dimensions defaultCfg 16 9 40 9).2 ≤ 9 :=
  calculate_dimensions_bounds defaultCfg 16 9 40 9 (by norm_num) (by norm_num)
    (by norm_num) (by norm_num)
    (by intro a ha; simp [defaultCfg, mkConverter] at ha)
    (by intro x hx; simp [defaultCfg, mkConverter] at hx)
    (by intro x hx; simp [defaultCfg, mkConverter] at hx)

/-- C1 (code bug exhibit): play() computes its sleep period from
self._fps before the frames() generator has opened the video (generators
are lazy), so on a freshly constructed player the sleep period is 1/30 —
the __init__ default — for every source.  Had the period been derived
after _open_video, a source reporting 60 fps would give 1/60. -/
theorem play_sleep_period_is_init_default :
    play_sleep_period initPlayer = 1 / 30 ∧
      frameDurationOf (open_video 60 0 initPlayer).fps = 1 / 60 ∧
      (1 / 30 : ℚ) ≠ 1 / 60 := by
  refine ⟨?_, ?_, by norm_num⟩ <;>
    norm_num [play_sleep_period, frameDurationOf, initPlayer, open_video]

/-- C9: with loop enabled and a source whose reads always fail (a
zero-frame video), the frames() loop yields no frame and does not
terminate within any number of iterations: it keeps resetting the
position to 0 and retrying. -/
theorem frames_loop_zero_frame_source (n : ℕ) :
    frames_run true (fun _ => false) n ⟨0, 0⟩ = (0, false) := by
  induction n with
  | zero => rfl
  | succ n ih => simpa [frames_run, frames_step] using ih

/-- C7 (counterexample): when opening the source fails, play() has
already hidden the cursor — the hide escape is its very first terminal
write, emitted before the lazy frames() generator attempts the open — so
terminal state is mutated even though the source is never confirmed
open. -/
theorem play_hides_cursor_before_open :
    (play (.error .notFound) true).1.head? = some .hideCursor ∧
      (play (.error .notFound) true).1 ≠ [] ∧
      (play (.error .notFound) true).2 = .error .notFound := by
  refine ⟨rfl, ?_, rfl⟩
  simp [play]

/-- C7 (amended): when opening the video source fails at setup, the
error propagates and no frame is rendered, but the terminal does see a
cursor-hide before the open attempt; the finally-block then restores
the cursor and emits a trailing newline, so no hidden-cursor state
persists on exit. -/
theorem play_open_failure_trace (e : PyErr) (st : Bool) :
    (play (.error e) st).1 =
      [.hideCursor, .flushOut, .showCursor, .writeNewline, .flushOut] ∧
      (play (.error e) st).2 = .error e :=
  ⟨rfl, rfl⟩

/-- C5 (counterexample): the resolver truncates with int() where the
claim says round.  For a 27:16 source on a 40x20 terminal the code
computes int(40 / 3.375) = int(11.85) = 11 rows, while the claimed
round(40 / 3.375) gives 12. -/
theorem calculate_dimensions_truncates_not_rounds :
    calculate_dimensions defaultCfg 27 16 40 20 = (40, 11) ∧
      calculate_dimensions_spec defaultCfg 27 16 40 20 = (40, 12) ∧
      ((40, 11) : ℤ × ℤ) ≠ (40, 12) := by
  refine ⟨?_, ?_, by decide⟩ <;>
    norm_num [calculate_dimensions, calculate_dimensions_spec, effectiveAspect,
      defaultCfg, mkConverter, CHAR_ASPECT, pyInt, round_eq]

/-- C5 (amended): when neither width nor height is configured the
resolver first tries width = terminalWidth with height =
int(width / charAdjustedRatio) — truncation, not rounding — and if that
height exceeds terminalHeight it instead fixes height = terminalHeight
and derives width = int(height * charAdjustedRatio); the final clamp
only affects the recomputed dimension.  In particular for terminal
(40, 10) with the status row reserved and source aspect 16/9 the result
is (32, 9). -/
theorem calculate_dimensions_auto_fit (cfg : AsciiConverterCfg) (fw fh W H : ℤ)
    (hW : 1 ≤ W) (hH : 1 ≤ H)
    (hwn : cfg.width = none) (hhn : cfg.height = none)
    (hr : 0 < effectiveAspect cfg fw fh) :
    (pyInt ((W : ℚ) / (effectiveAspect cfg fw fh / CHAR_ASPECT)) ≤ H →
      calculate_dimensions cfg fw fh W H =
        (W, max 1 (pyInt ((W : ℚ) / (effectiveAspect cfg fw fh / CHAR_ASPECT))))) ∧
    (H < pyInt ((W : ℚ) / (effectiveAspect cfg fw fh / CHAR_ASPECT)) →
      calculate_dimensions cfg fw fh W H =
        (max 1 (pyInt ((H : ℚ) * (effectiveAspect cfg fw fh / CHAR_ASPECT))), H)) ∧
    calculate_dimensions defaultCfg 16 9 (get_terminal_size 40 10).1
      (get_terminal_size 40 10).2 = (32, 9) := by
  have hrpos : 0 < effectiveAspect cfg fw fh / CHAR_ASPECT := by
    have : (0 : ℚ) < CHAR_ASPECT := by norm_num [CHAR_ASPECT]
    positivity
  refine ⟨?_, ?_, ?_⟩
  · intro ht
    obtain ⟨chars, ow, oh, oa, col⟩ := cfg
    simp only at hwn hhn
    subst hwn hhn
    simp only [calculate_dimensions]
    rw [if_neg (not_lt.2 ht)]
    rw [min_self, max_eq_right hW, min_eq_left ht]
  · intro ht
    have hWq : (0 : ℚ) ≤ (W : ℚ) := by exact_mod_cast le_trans zero_le_one hW
    have hfloor : pyInt ((W : ℚ) / (effectiveAspect cfg fw fh / CHAR_ASPECT)) =
        ⌊(W : ℚ) / (effectiveAspect cfg fw fh / CHAR_ASPECT)⌋ :=
      pyInt_of_nonneg (div_nonneg hWq (le_of_lt hrpos))
    have hHlt : (H : ℚ) < (W : ℚ) / (effectiveAspect cfg fw fh / CHAR_ASPECT) := by
      rw [hfloor] at ht
      calc (H : ℚ) < (⌊(W : ℚ) / (effectiveAspect cfg fw fh / CHAR_ASPECT)⌋ : ℚ) := by
            exact_mod_cast ht
        _ ≤ (W : ℚ) / (effectiveAspect cfg fw fh / CHAR_ASPECT) := Int.floor_le _
    have hmul : (H : ℚ) * (effectiveAspect cfg fw fh / CHAR_ASPECT) < (W : ℚ) := by
      have := (lt_div_iff₀ hrpos).1 hHlt
      linarith
    have hHq : (0 : ℚ) ≤ (H : ℚ) := by exact_mod_cast le_trans zero_le_one hH
    have hp : pyInt ((H : ℚ) * (effectiveAspect cfg fw fh / CHAR_ASPECT)) =
        ⌊(H : ℚ) * (effectiveAspect cfg fw fh / CHAR_ASPECT)⌋ :=
      pyInt_of_nonneg (mul_nonneg hHq (le_of_lt hrpos))
    have hle : pyInt ((H : ℚ) * (effectiveAspect cfg fw fh / CHAR_ASPECT)) ≤ W := by
      rw [hp]
      have h1 : (⌊(H : ℚ) * (effectiveAspect cfg fw fh / CHAR_ASPECT)⌋ : ℚ) < (W : ℚ) :=
        lt_of_le_of_lt (Int.floor_le _) hmul
      exact_mod_cast le_of_lt h1
    obtain ⟨chars, ow, oh, oa, col⟩ := cfg
    simp only at hwn hhn
    subst hwn hhn
    simp only [calculate_dimensions]
    rw [if_pos ht]
    rw [min_self, max_eq_right hH, min_eq_left hle]
  · norm_num [calculate_dimensions, effectiveAspect, defaultCfg, mkConverter,
      CHAR_ASPECT, pyInt, get_terminal_size]

/-- Witness for C5 at the end-to-end scenario: source aspect 16/9 on
terminal bounds (40, 9); the first-try height int(40/3.555) = 11
exceeds 9, so the refit-by-height branch applies and yields (32, 9). -/
theorem calculate_dimensions_auto_fit_witness :
    9 < pyInt ((40 : ℚ) / (effectiveAspect defaultCfg 16 9 / CHAR_ASPECT)) ∧
      calculate_dimensions defaultCfg 16 9 40 9 =
        (max 1 (pyInt ((9 : ℚ) * (effectiveAspect defaultCfg 16 9 / CHAR_ASPECT))), 9) := by
  have h : (9 : ℤ) < pyInt ((40 : ℚ) / (effectiveAspect defaultCfg 16 9 / CHAR_ASPECT)) := by
    norm_num [effectiveAspect, defaultCfg, mkConverter, CHAR_ASPECT, pyInt]
  exact ⟨h, ((calculate_dimensions_auto_fit defaultCfg 16 9 40 9 (by norm_num) (by norm_num)
    rfl rfl (by norm_num [effectiveAspect, defaultCfg, mkConverter])).2.1) h⟩

/-- C10 (counterexample): on a one-row terminal the reserved status row
makes the effective height 0, and the resolver's final clamp then forces
the output height up to 1, which exceeds raw rows - 1 = 0. -/
theorem terminal_reserve_row_counterexample :
    get_terminal_size 80 1 = (80, 0) ∧
      (calculate_dimensions defaultCfg 100 100 (get_terminal_size 80 1).1
        (get_terminal_size 80 1).2).2 = 1 ∧
      ¬ ((calculate_dimensions defaultCfg 100 100 (get_terminal_size 80 1).1
        (get_terminal_size 80 1).2).2 ≤ 1 - 1) := by
  have h : (calculate_dimensions defaultCfg 100 100 (get_terminal_size 80 1).1
      (get_terminal_size 80 1).2).2 = 1 := by
    norm_num [calculate_dimensions, effectiveAspect, defaultCfg, mkConverter,
      CHAR_ASPECT, pyInt, get_terminal_size]
  refine ⟨rfl, h, ?_⟩
  rw [h]
  decide

/-- C10 (amended): the terminal-size query reports effective height =
raw rows - 1 unconditionally (it takes no status flag), and for every
conversion on a terminal with at least two raw rows the resolved output
height never exceeds raw rows - 1. -/
theorem conversion_height_bounded (cfg : AsciiConverterCfg) (fw fh cols lines : ℤ)
    (hl : 2 ≤ lines) :
    (get_terminal_size cols lines).2 = lines - 1 ∧
      (calculate_dimensions cfg fw fh (get_terminal_size cols lines).1
        (get_terminal_size cols lines).2).2 ≤ lines - 1 := by
  refine ⟨rfl, ?_⟩
  have h1 : (1 : ℤ) ≤ lines - 1 := by omega
  obtain ⟨chars, ow, oh, oa, col⟩ := cfg
  rcases ow with _ | w <;> rcases oh with _ | h <;>
    simp only [calculate_dimensions, get_terminal_size]
  · exact max_le h1 (min_le_right _ _)
  · exact max_le h1 (min_le_right _ _)
  · exact max_le h1 (min_le_right _ _)
  · exact min_le_right _ _

/-- Witness for C10 on an ordinary 80x24 terminal. -/
theorem conversion_height_bounded_witness :
    (get_terminal_size 80 24).2 = 24 - 1 ∧
      (calculate_dimensions defaultCfg 100 100 (get_terminal_size 80 24).1
        (get_terminal_size 80 24).2).2 ≤ 24 - 1 :=
  conversion_height_bounded defaultCfg 100 100 80 24 (by norm_num)

/-- C6 (counterexample): the index array is cast with astype(uint8), so
for a ramp of 257 glyphs and brightness 255 the stored index is
floor(255/255*256) mod 256 = 0, not the claimed floor value 256. -/
theorem rampIndex_wraps_at_257 :
    rampIndex (List.replicate 257 ' ').length 255 = 0 ∧
      ⌊(255 : ℚ) / 255 * ((((List.replicate 257 ' ').length : ℤ) - 1 : ℤ) : ℚ)⌋ = 256 ∧
      (0 : ℕ) ≠ 256 := by
  rw [List.length_replicate]
  refine ⟨?_, ?_, by decide⟩ <;> norm_num [rampIndex, pyInt]

lemma rampIndex_facts (L v : ℕ) (hL : 1 ≤ L) (hv : v ≤ 255) :
    rampIndex L v = (⌊(v : ℚ) / 255 * (((L : ℤ) - 1 : ℤ) : ℚ)⌋).toNat % 256 ∧
      rampIndex L v < L ∧
      (L ≤ 256 → (rampIndex L v : ℤ) = ⌊(v : ℚ) / 255 * (((L : ℤ) - 1 : ℤ) : ℚ)⌋) := by
  have hm : (0 : ℤ) ≤ (L : ℤ) - 1 := by
    have : (1 : ℤ) ≤ (L : ℤ) := by exact_mod_cast hL
    omega
  have hq0 : (0 : ℚ) ≤ (v : ℚ) / 255 * (((L : ℤ) - 1 : ℤ) : ℚ) := by
    apply mul_nonneg
    · positivity
    · exact_mod_cast hm
  have hqle : (v : ℚ) / 255 * (((L : ℤ) - 1 : ℤ) : ℚ) ≤ (((L : ℤ) - 1 : ℤ) : ℚ) := by
    have h1 : (v : ℚ) / 255 ≤ 1 := by
      rw [div_le_one (by norm_num : (0 : ℚ) < 255)]
      exact_mod_cast hv
    calc (v : ℚ) / 255 * (((L : ℤ) - 1 : ℤ) : ℚ) ≤ 1 * (((L : ℤ) - 1 : ℤ) : ℚ) :=
          mul_le_mul_of_nonneg_right h1 (by exact_mod_cast hm)
      _ = (((L : ℤ) - 1 : ℤ) : ℚ) := one_mul _
  have hfl0 : 0 ≤ ⌊(v : ℚ) / 255 * (((L : ℤ) - 1 : ℤ) : ℚ)⌋ := Int.floor_nonneg.2 hq0
  have hflle : ⌊(v : ℚ) / 255 * (((L : ℤ) - 1 : ℤ) : ℚ)⌋ ≤ (L : ℤ) - 1 := by
    have := Int.floor_le_floor hqle
    rwa [Int.floor_intCast] at this
  have hkey : rampIndex L v = (⌊(v : ℚ) / 255 * (((L : ℤ) - 1 : ℤ) : ℚ)⌋).toNat % 256 := by
    unfold rampIndex
    rw [pyInt_of_nonneg hq0]
    omega
  have htle : (⌊(v : ℚ) / 255 * (((L : ℤ) - 1 : ℤ) : ℚ)⌋).toNat ≤ L - 1 := by
    omega
  refine ⟨hkey, ?_, ?_⟩
  · rw [hkey]
    have := Nat.mod_le (⌊(v : ℚ) / 255 * (((L : ℤ) - 1 : ℤ) : ℚ)⌋).toNat 256
    omega
  · intro hL256
    rw [hkey]
    rw [Nat.mod_eq_of_lt (by omega)]
    rw [Int.toNat_of_nonneg hfl0]

/-- C6 (amended): for every brightness v in [0, 255] and non-empty ramp
of length L, the frame converter stores ramp index
floor(v/255*(L-1)) mod 256 (the uint8 cast); this always lies in
[0, L-1], and whenever L ≤ 256 (every practical ramp) it equals
floor(v/255*(L-1)) exactly, as the claim states. -/
theorem rampIndex_floor_formula (L v : ℕ) (hL : 1 ≤ L) (hv : v ≤ 255) :
    rampIndex L v = (⌊(v : ℚ) / 255 * (((L : ℤ) - 1 : ℤ) : ℚ)⌋).toNat % 256 ∧
      rampIndex L v < L ∧
      (L ≤ 256 → (rampIndex L v : ℤ) = ⌊(v : ℚ) / 255 * (((L : ℤ) - 1 : ℤ) : ℚ)⌋) :=
  rampIndex_facts L v hL hv

lemma splitOnChar_of_not_mem {sep : Char} {l : List Char} (h : sep ∉ l) :
    splitOnChar sep l = [l] := by
  induction l with
  | nil => rfl
  | cons c cs ih =>
    have hc : c ≠ sep := fun hh => h (hh ▸ List.mem_cons_self c cs)
    have hcs : sep ∉ cs := fun hh => h (List.mem_cons_of_mem c hh)
    simp [splitOnChar, ih hcs, hc]

lemma splitOnChar_append {sep : Char} {l rest x : List Char} {xs : List (List Char)}
    (hl : sep ∉ l) (hr : splitOnChar sep rest = x :: xs) :
    splitOnChar sep (l ++ rest) = (l ++ x) :: xs := by
  induction l with
  | nil => simpa using hr
  | cons c l2 ih =>
    have hc : c ≠ sep := fun hh => hl (hh ▸ List.mem_cons_self c l2)
    have hl2 : sep ∉ l2 := fun hh => hl (List.mem_cons_of_mem c hh)
    simp [splitOnChar, ih hl2, hc]

lemma splitOnChar_sep_cons {sep : Char} {b : List Char} (hb : sep ∉ b) :
    splitOnChar sep (sep :: b) = [[], b] := by
  simp [splitOnChar, splitOnChar_of_not_mem hb]

/-- C8: parsing an aspect string of the form W:H yields the float W/H;
in particular 9:16 yields 0.5625 and 1:1 yields 1.0; and a malformed
string such as abc fails with the invalid-configuration error
(ValueError in the code, InvalidConfig in the spec taxonomy), not with a
value or another error. -/
theorem parseAspect_spec :
    (∀ (a b : List Char) (qa qb : ℚ), ':' ∉ a → ':' ∉ b →
      pyFloat a = .ok qa → pyFloat b = .ok qb → qb ≠ 0 →
      parseAspect (a ++ ':' :: b) = .ok (qa / qb)) ∧
    (∀ (s : List Char) (q : ℚ), ':' ∉ s → pyFloat s = .ok q →
      parseAspect s = .ok q) ∧
    parseAspect ['9', ':', '1', '6'] = .ok (9 / 16 : ℚ) ∧
    (9 / 16 : ℚ) = 0.5625 ∧
    parseAspect ['1', ':', '1'] = .ok 1 ∧
    parseAspect ['0', '.', '7', '5'] = .ok (3 / 4 : ℚ) ∧
    parseAspect ['a', 'b', 'c'] = .error .invalidConfig := by
  refine ⟨?_, ?_, ?_, by norm_num, ?_, ?_, ?_⟩
  · intro a b qa qb ha hb hfa hfb hqb
    have hmem : ':' ∈ a ++ ':' :: b := List.mem_append_right a (List.mem_cons_self _ _)
    have hsplit : splitOnChar ':' (a ++ ':' :: b) = [a, b] := by
      have h1 : splitOnChar ':' (':' :: b) = [[], b] := splitOnChar_sep_cons hb
      simpa using splitOnChar_append ha h1
    simp [parseAspect, hmem, hsplit, hfa, hfb, hqb]
  · intro s q hs hf
    simp [parseAspect, hs, hf]
  · simp +decide [parseAspect, pyFloat, stripSpaces, splitOnChar, isDigits, digitsVal]
  · simp +decide [parseAspect, pyFloat, stripSpaces, splitOnChar, isDigits, digitsVal]
  · simp +decide [parseAspect, pyFloat, stripSpaces, splitOnChar, isDigits, digitsVal]
    norm_num
  · simp +decide [parseAspect, pyFloat, stripSpaces, splitOnChar, isDigits, digitsVal]

/-- Witness for C8's general clauses: the W:H form at 16:9 and the bare
decimal form at 2.5. -/
theorem parseAspect_spec_witness :
    parseAspect (['1', '6'] ++ ':' :: ['9']) = .ok ((16 : ℚ) / 9) ∧
      parseAspect ['2', '.', '5'] = .ok ((5 : ℚ) / 2) :=
  ⟨parseAspect_spec.1 ['1', '6'] ['9'] 16 9 (by decide) (by decide)
    (by simp +decide [pyFloat, stripSpaces, splitOnChar, isDigits, digitsVal])
    (by simp +decide [pyFloat, stripSpaces, splitOnChar, isDigits, digitsVal])
    (by norm_num),
   parseAspect_spec.2.1 ['2', '.', '5'] ((5 : ℚ) / 2) (by decide)
    (by simp +decide [pyFloat, stripSpaces, splitOnChar, isDigits, digitsVal]
        norm_num)⟩

lemma lookupGlyph_nil (i : ℕ) : lookupGlyph [] i = .error .indexError := by
  simp [lookupGlyph]

/-- C4 (counterexample): AsciiConverter.__init__ performs no ramp
validation, so construction with an empty ramp succeeds; converting a
frame then fails with an IndexError raised by the chars[index] lookup —
an unrelated error, not InvalidConfig. -/
theorem empty_ramp_gives_index_error :
    mkConverter [] none none none false false =
      ⟨[], none, none, none, false⟩ ∧
      frame_to_ascii (mkConverter [] none none none false false) 1 1 1 1
        [[17]] [] false 0 = .error .indexError ∧
      PyErr.indexError ≠ PyErr.invalidConfig := by
  refine ⟨rfl, ?_, by decide⟩
  simp [frame_to_ascii, mkConverter, plainLine, mapE, lookupGlyph_nil]

/-- C4 (amended): constructing the converter with an empty glyph ramp
succeeds (the constructor validates nothing); converting any frame whose
resized grids have a nonempty first row then fails with indexError (the
chars[index] lookup on an empty string), in color and plain mode alike. -/
theorem empty_ramp_conversion_errors (width height : Option ℤ) (aspect : Option ℚ)
    (invert color : Bool) (fw fh W H : ℤ) (ts : ℚ)
    (v0 : ℕ) (rest : List ℕ) (grid : List (List ℕ))
    (c0 : ℕ × ℕ × ℕ) (crest : List (ℕ × ℕ × ℕ)) (cgrid : List (List (ℕ × ℕ × ℕ)))
    (frameHasColor : Bool) :
    (mkConverter [] width height aspect invert color).chars = [] ∧
      frame_to_ascii (mkConverter [] width height aspect invert color) fw fh W H
        ((v0 :: rest) :: grid) ((c0 :: crest) :: cgrid) frameHasColor 0 =
        .error .indexError := by
  have hchars : (mkConverter [] width height aspect invert color).chars = [] := by
    simp [mkConverter]
  refine ⟨hchars, ?_⟩
  by_cases hcol : ((mkConverter [] width height aspect invert color).color && frameHasColor)
  · simp [frame_to_ascii, hcol, hchars, colorLine, mapE, lookupGlyph_nil]
  · simp [frame_to_ascii, hcol, hchars, plainLine, mapE, lookupGlyph_nil]

/-- Witness for C6 with the default 10-glyph ramp and brightness 128:
the stored index is floor(128/255*9) = 4, within [0, 9]. -/
theorem rampIndex_floor_formula_witness :
    rampIndex ASCII_CHARS_DETAILED.length 128 < ASCII_CHARS_DETAILED.length ∧
      (rampIndex ASCII_CHARS_DETAILED.length 128 : ℤ) =
        ⌊(128 : ℚ) / 255 * (((ASCII_CHARS_DETAILED.length : ℤ) - 1 : ℤ) : ℚ)⌋ :=
  ⟨(rampIndex_floor_formula ASCII_CHARS_DETAILED.length 128 (by decide) (by decide)).2.1,
    (rampIndex_floor_formula ASCII_CHARS_DETAILED.length 128 (by decide) (by decide)).2.2
      (by decide)⟩

lemma mapE_ok_map {α β : Type} (f : α → Except PyErr β) (g : α → β) (l : List α)
    (h : ∀ a ∈ l, f a = .ok (g a)) : mapE f l = .ok (l.map g) := by
  induction l with
  | nil => rfl
  | cons a t ih =>
    have h1 := h a (List.mem_cons_self a t)
    have h2 : ∀ x ∈ t, f x = .ok (g x) := fun x hx => h x (List.mem_cons_of_mem a hx)
    simp [mapE, h1, ih h2]

lemma rampIndex_lt_chars {chars : List Char} (hne : chars ≠ []) {v : ℕ} (hv : v ≤ 255) :
    rampIndex chars.length v < chars.length :=
  (rampIndex_facts chars.length v (List.length_pos.2 hne) hv).2.1

lemma lookupGlyph_ok_at {chars : List Char} (hne : chars ≠ []) {v : ℕ} (hv : v ≤ 255) :
    lookupGlyph chars (rampIndex chars.length v) = .ok (glyphAt chars v) := by
  have hlt := rampIndex_lt_chars hne hv
  unfold lookupGlyph glyphAt
  rw [dif_pos hlt]
  rw [List.get_eq_getElem, List.getD_eq_getElem chars ' ' hlt]

lemma glyphAt_ne {chars : List Char} {x : Char} (hx : ∀ c ∈ chars, c ≠ x) (hsp : x ≠ ' ')
    (v : ℕ) : glyphAt chars v ≠ x := by
  unfold glyphAt
  rcases lt_or_ge (rampIndex chars.length v) chars.length with h | h
  · rw [List.getD_eq_getElem chars ' ' h]
    exact hx _ (List.getElem_mem h)
  · rw [List.getD_eq_default chars ' ' h]
    exact Ne.symm hsp

lemma plainLine_ok {chars : List Char} (hne : chars ≠ []) {row : List ℕ}
    (hv : ∀ v ∈ row, v ≤ 255) :
    plainLine chars row = .ok (row.map (glyphAt chars)) :=
  mapE_ok_map _ _ _ (fun v hv2 => lookupGlyph_ok_at hne (hv v hv2))

lemma visScan_append (s : Bool × ℕ) (x y : List Char) :
    visScan s (x ++ y) = visScan (visScan s x) y := by
  simp [visScan]

lemma visScan_no_esc {l : List Char} (h : ∀ c ∈ l, c ≠ '\x1b') :
    ∀ n, visScan (false, n) l = (false, n + l.length) := by
  induction l with
  | nil => intro n; simp [visScan]
  | cons c cs ih =>
    intro n
    have hc : c ≠ '\x1b' := h c (List.mem_cons_self c cs)
    have hcs : ∀ x ∈ cs, x ≠ '\x1b' := fun x hx => h x (List.mem_cons_of_mem c hx)
    have hstep : visScan (false, n) (c :: cs) = visScan (false, n + 1) cs := by
      simp [visScan, visStep, hc]
    rw [hstep, ih hcs (n + 1)]
    exact Prod.ext rfl (by simp; omega)

lemma visScan_in_esc {l : List Char} (h : ∀ c ∈ l, c ≠ 'm') :
    ∀ n, visScan (true, n) l = (true, n) := by
  induction l with
  | nil => intro n; simp [visScan]
  | cons c cs ih =>
    intro n
    have hc : c ≠ 'm' := h c (List.mem_cons_self c cs)
    have hcs : ∀ x ∈ cs, x ≠ 'm' := fun x hx => h x (List.mem_cons_of_mem c hx)
    have hstep : visScan (true, n) (c :: cs) = visScan (true, n) cs := by
      simp [visScan, visStep, hc]
    rw [hstep, ih hcs n]

lemma digitChar_isDigit : ∀ k < 10, (digitChar k).isDigit = true := by decide

lemma natDigitsAux_digits : ∀ (fuel n : ℕ), ∀ c ∈ natDigitsAux fuel n, c.isDigit = true := by
  intro fuel
  induction fuel with
  | zero => intro n c hc; simp [natDigitsAux] at hc
  | succ fuel ih =>
    intro n c hc
    by_cases hn : n < 10
    · simp only [natDigitsAux, if_pos hn, List.mem_singleton] at hc
      exact hc ▸ digitChar_isDigit n hn
    · simp only [natDigitsAux, if_neg hn, List.mem_append, List.mem_singleton] at hc
      rcases hc with hc | hc
      · exact ih _ c hc
      · exact hc ▸ digitChar_isDigit _ (Nat.mod_lt n (by norm_num))

lemma natDigits_digits (n : ℕ) : ∀ c ∈ natDigits n, c.isDigit = true :=
  natDigitsAux_digits (n + 1) n

lemma isDigit_ne {c : Char} (h : c.isDigit = true) : c ≠ 'm' ∧ c ≠ '\x1b' ∧ c ≠ '\n' := by
  refine ⟨fun he => ?_, fun he => ?_, fun he => ?_⟩ <;> subst he <;> revert h <;> decide

lemma rgb_shape (r g b : ℕ) : rgb_to_ansi r g b =
    '\x1b' :: (('[' :: '3' :: '8' :: ';' :: '2' :: ';' ::
      (natDigits r ++ (';' :: (natDigits g ++ (';' :: natDigits b))))) ++ ['m']) := by
  simp [rgb_to_ansi]

lemma mid_no_m (r g b : ℕ) : ∀ c ∈ ('[' :: '3' :: '8' :: ';' :: '2' :: ';' ::
    (natDigits r ++ (';' :: (natDigits g ++ (';' :: natDigits b))))), c ≠ 'm' := by
  intro c hc
  simp only [List.mem_cons, List.mem_append] at hc
  rcases hc with rfl | rfl | rfl | rfl | rfl | rfl | hc | rfl | hc | rfl | hc
  · decide
  · decide
  · decide
  · decide
  · decide
  · decide
  · exact (isDigit_ne (natDigits_digits r c hc)).1
  · decide
  · exact (isDigit_ne (natDigits_digits g c hc)).1
  · decide
  · exact (isDigit_ne (natDigits_digits b c hc)).1

lemma visScan_rgb_to_ansi (r g b : ℕ) (n : ℕ) :
    visScan (false, n) (rgb_to_ansi r g b) = (false, n) := by
  rw [rgb_shape]
  have h1 : visScan (false, n)
      ('\x1b' :: (('[' :: '3' :: '8' :: ';' :: '2' :: ';' ::
        (natDigits r ++ (';' :: (natDigits g ++ (';' :: natDigits b))))) ++ ['m'])) =
      visScan (true, n) (('[' :: '3' :: '8' :: ';' :: '2' :: ';' ::
        (natDigits r ++ (';' :: (natDigits g ++ (';' :: natDigits b))))) ++ ['m']) := by
    simp [visScan, visStep]
  rw [h1, visScan_append, visScan_in_esc (mid_no_m r g b) n]
  simp [visScan, visStep]

lemma mem_rgb_to_ansi_ne_nl (r g b : ℕ) : ∀ c ∈ rgb_to_ansi r g b, c ≠ '\n' := by
  intro c hc
  rw [rgb_shape] at hc
  simp only [List.mem_cons, List.mem_append, List.mem_singleton, List.mem_nil_iff,
    or_false] at hc
  rcases hc with rfl | (rfl | rfl | rfl | rfl | rfl | rfl | hc | rfl | hc | rfl | hc) | rfl
  · decide
  · decide
  · decide
  · decide
  · decide
  · decide
  · decide
  · exact (isDigit_ne (natDigits_digits r c hc)).2.2
  · decide
  · exact (isDigit_ne (natDigits_digits g c hc)).2.2
  · decide
  · exact (isDigit_ne (natDigits_digits b c hc)).2.2
  · decide

lemma visScan_colorCell {chars : List Char} (hesc : ∀ c ∈ chars, c ≠ '\x1b')
    (vc : ℕ × (ℕ × ℕ × ℕ)) (n : ℕ) :
    visScan (false, n) (colorCell chars vc) = (false, n + 1) := by
  unfold colorCell
  rw [visScan_append, visScan_rgb_to_ansi]
  have hg : glyphAt chars vc.1 ≠ '\x1b' := glyphAt_ne hesc (by decide) vc.1
  simp [visScan, visStep, hg]

lemma visScan_catLists_cells {chars : List Char} (hesc : ∀ c ∈ chars, c ≠ '\x1b')
    (l : List (ℕ × (ℕ × ℕ × ℕ))) :
    ∀ n, visScan (false, n) (catLists (l.map (colorCell chars))) = (false, n + l.length) := by
  induction l with
  | nil => intro n; simp [catLists, visScan]
  | cons a t ih =>
    intro n
    simp only [List.map_cons, catLists]
    rw [visScan_append, visScan_colorCell hesc, ih (n + 1)]
    exact Prod.ext rfl (by simp; omega)

lemma visScan_reset (n : ℕ) : visScan (false, n) ANSI_RESET = (false, n) := rfl

lemma colorLine_ok {chars : List Char} (hne : chars ≠ []) {grayRow : List ℕ}
    {rgbRow : List (ℕ × ℕ × ℕ)} (hv : ∀ v ∈ grayRow, v ≤ 255) :
    colorLine chars grayRow rgbRow =
      .ok (catLists ((grayRow.zip rgbRow).map (colorCell chars)) ++ ANSI_RESET) := by
  unfold colorLine
  rw [mapE_ok_map _ (colorCell chars)]
  intro vc hvc
  obtain ⟨v, c⟩ := vc
  have hv1 : v ≤ 255 := hv v (List.of_mem_zip hvc).1
  rw [lookupGlyph_ok_at hne hv1]
  rfl

lemma visibleGlyphs_plain_line {chars : List Char} (hesc : ∀ c ∈ chars, c ≠ '\x1b')
    (row : List ℕ) : visibleGlyphs (row.map (glyphAt chars)) = row.length := by
  unfold visibleGlyphs
  rw [visScan_no_esc ?h 0]
  · simp
  · intro c hc
    obtain ⟨v, hv, rfl⟩ := List.mem_map.1 hc
    exact glyphAt_ne hesc (by decide) v

lemma visibleGlyphs_color_line {chars : List Char} (hesc : ∀ c ∈ chars, c ≠ '\x1b')
    (l : List (ℕ × (ℕ × ℕ × ℕ))) :
    visibleGlyphs (catLists (l.map (colorCell chars)) ++ ANSI_RESET) = l.length := by
  unfold visibleGlyphs
  rw [visScan_append, visScan_catLists_cells hesc l 0, visScan_reset]
  simp

lemma nl_not_mem_plain_line {chars : List Char} (hnl : ∀ c ∈ chars, c ≠ '\n')
    (row : List ℕ) : '\n' ∉ row.map (glyphAt chars) := by
  intro hmem
  obtain ⟨v, hv, he⟩ := List.mem_map.1 hmem
  exact glyphAt_ne hnl (by decide) v he

lemma mem_catLists {c : Char} {ls : List (List Char)} (h : c ∈ catLists ls) :
    ∃ l ∈ ls, c ∈ l := by
  induction ls with
  | nil => simp [catLists] at h
  | cons a t ih =>
    simp only [catLists, List.mem_append] at h
    rcases h with h | h
    · exact ⟨a, List.mem_cons_self a t, h⟩
    · obtain ⟨l, hl, hc⟩ := ih h
      exact ⟨l, List.mem_cons_of_mem a hl, hc⟩

lemma nl_not_mem_color_line {chars : List Char} (hnl : ∀ c ∈ chars, c ≠ '\n')
    (l : List (ℕ × (ℕ × ℕ × ℕ))) :
    '\n' ∉ catLists (l.map (colorCell chars)) ++ ANSI_RESET := by
  intro h
  rcases List.mem_append.1 h with h | h
  · obtain ⟨cell, hcell, hc⟩ := mem_catLists h
    obtain ⟨vc, hvc, rfl⟩ := List.mem_map.1 hcell
    unfold colorCell at hc
    rcases List.mem_append.1 hc with h2 | h2
    · exact mem_rgb_to_ansi_ne_nl _ _ _ _ h2 rfl
    · rw [List.mem_singleton] at h2
      exact glyphAt_ne hnl (by decide) vc.1 h2.symm
  · revert h; decide

lemma splitNl_joinNl {L : List (List Char)} (hne : L ≠ []) (h : ∀ l ∈ L, '\n' ∉ l) :
    splitNl (joinNl L) = L := by
  induction L with
  | nil => exact absurd rfl hne
  | cons l ls ih =>
    cases ls with
    | nil => exact splitOnChar_of_not_mem (h l (List.mem_cons_self l []))
    | cons l2 ls2 =>
      have hl : '\n' ∉ l := h l (List.mem_cons_self _ _)
      have hrest : splitOnChar '\n' (joinNl (l2 :: ls2)) = l2 :: ls2 :=
        ih (by simp) (fun x hx => h x (List.mem_cons_of_mem _ hx))
      have hsep : splitOnChar '\n' ('\n' :: joinNl (l2 :: ls2)) = [] :: l2 :: ls2 := by
        simp [splitOnChar, hrest]
      have happ := splitOnChar_append hl hsep
      simpa [splitNl, joinNl] using happ

/-- C3: for every valid RasterFrame (positive dimensions, 8-bit pixel
values, resampled grids of the contracted cv2.resize shape) and valid
PlaybackConfig (non-empty ramp of ordinary display characters, positive
optional explicit dimensions, positive optional forced aspect), the
frame converter succeeds and its output dimensions equal exactly what
the dimension resolver returned; the content decodes back into exactly
outHeight lines, each holding exactly outWidth visible glyphs, with ANSI
escape sequences counted as zero-width — in color and plain mode
alike. -/
theorem frame_converter_shape (cfg : AsciiConverterCfg) (fw fh W H : ℤ) (ts : ℚ)
    (resizedGray : List (List ℕ)) (resizedRgb : List (List (ℕ × ℕ × ℕ)))
    (frameHasColor : Bool)
    (hW : 1 ≤ W) (hH : 1 ≤ H) (hfw : 0 < fw) (hfh : 0 < fh)
    (ha : ∀ a, cfg.aspect = some a → 0 < a)
    (hw : ∀ x, cfg.width = some x → 1 ≤ x)
    (hh : ∀ x, cfg.height = some x → 1 ≤ x)
    (hchars : cfg.chars ≠ [])
    (hcs : ∀ c ∈ cfg.chars, c ≠ '\x1b' ∧ c ≠ '\n')
    (hg1 : resizedGray.length = (calculate_dimensions cfg fw fh W H).2.toNat)
    (hg2 : ∀ row ∈ resizedGray, row.length = (calculate_dimensions cfg fw fh W H).1.toNat)
    (hgv : ∀ row ∈ resizedGray, ∀ v ∈ row, v ≤ 255)
    (hc1 : resizedRgb.length = (calculate_dimensions cfg fw fh W H).2.toNat)
    (hc2 : ∀ row ∈ resizedRgb, row.length = (calculate_dimensions cfg fw fh W H).1.toNat) :
    ∃ af, frame_to_ascii cfg fw fh W H resizedGray resizedRgb frameHasColor ts = .ok af ∧
      af.width = (calculate_dimensions cfg fw fh W H).1 ∧
      af.height = (calculate_dimensions cfg fw fh W H).2 ∧
      (splitNl af.content).length = (calculate_dimensions cfg fw fh W H).2.toNat ∧
      ∀ l ∈ splitNl af.content,
        visibleGlyphs l = (calculate_dimensions cfg fw fh W H).1.toNat := by
  have hesc : ∀ c ∈ cfg.chars, c ≠ '\x1b' := fun c hc => (hcs c hc).1
  have hnl : ∀ c ∈ cfg.chars, c ≠ '\n' := fun c hc => (hcs c hc).2
  have hbounds := calc_dims_bounds_core cfg fw fh W H hW hH hw hh
  have hth1 : 1 ≤ (calculate_dimensions cfg fw fh W H).2 := hbounds.2.2.1
  cases hcol : cfg.color && frameHasColor with
  | false =>
    have hlines : mapE (plainLine cfg.chars) resizedGray =
        .ok (resizedGray.map (fun row => row.map (glyphAt cfg.chars))) :=
      mapE_ok_map _ _ _ (fun row hrow => plainLine_ok hchars (hgv row hrow))
    have hmapne : resizedGray.map (fun row => row.map (glyphAt cfg.chars)) ≠ [] := by
      intro he
      rw [List.map_eq_nil_iff] at he
      rw [he] at hg1
      simp at hg1
      omega
    have hnlines : ∀ l ∈ resizedGray.map (fun row => row.map (glyphAt cfg.chars)),
        '\n' ∉ l := by
      intro l hl
      obtain ⟨row, hrow, rfl⟩ := List.mem_map.1 hl
      exact nl_not_mem_plain_line hnl row
    have hsplit : splitNl (joinNl (resizedGray.map (fun row => row.map (glyphAt cfg.chars)))) =
        resizedGray.map (fun row => row.map (glyphAt cfg.chars)) :=
      splitNl_joinNl hmapne hnlines
    refine ⟨⟨joinNl (resizedGray.map (fun row => row.map (glyphAt cfg.chars))),
      (calculate_dimensions cfg fw fh W H).1, (calculate_dimensions cfg fw fh W H).2, ts⟩,
      ?_, rfl, rfl, ?_, ?_⟩
    · simp only [frame_to_ascii, hcol, Bool.false_eq_true, if_false]
      rw [hlines]
    · rw [hsplit]
      simp [hg1]
    · intro l hl
      rw [hsplit] at hl
      obtain ⟨row, hrow, rfl⟩ := List.mem_map.1 hl
      rw [visibleGlyphs_plain_line hesc row]
      exact hg2 row hrow
  | true =>
    have hlines : mapE (fun gc => colorLine cfg.chars gc.1 gc.2) (resizedGray.zip resizedRgb) =
        .ok ((resizedGray.zip resizedRgb).map
          (fun gc => catLists ((gc.1.zip gc.2).map (colorCell cfg.chars)) ++ ANSI_RESET)) :=
      mapE_ok_map _ _ _ (fun gc hgc =>
        colorLine_ok hchars (hgv gc.1 (List.of_mem_zip ((Prod.mk.eta (p := gc)) ▸ hgc)).1))
    have hziplen : (resizedGray.zip resizedRgb).length =
        (calculate_dimensions cfg fw fh W H).2.toNat := by
      rw [List.length_zip, hg1, hc1, min_self]
    have hmapne : (resizedGray.zip resizedRgb).map
        (fun gc => catLists ((gc.1.zip gc.2).map (colorCell cfg.chars)) ++ ANSI_RESET) ≠ [] := by
      intro he
      rw [List.map_eq_nil_iff] at he
      rw [he] at hziplen
      simp at hziplen
      omega
    have hnlines : ∀ l ∈ (resizedGray.zip resizedRgb).map
        (fun gc => catLists ((gc.1.zip gc.2).map (colorCell cfg.chars)) ++ ANSI_RESET),
        '\n' ∉ l := by
      intro l hl
      obtain ⟨gc, hgc, rfl⟩ := List.mem_map.1 hl
      exact nl_not_mem_color_line hnl (gc.1.zip gc.2)
    have hsplit : splitNl (joinNl ((resizedGray.zip resizedRgb).map
        (fun gc => catLists ((gc.1.zip gc.2).map (colorCell cfg.chars)) ++ ANSI_RESET))) =
        (resizedGray.zip resizedRgb).map
          (fun gc => catLists ((gc.1.zip gc.2).map (colorCell cfg.chars)) ++ ANSI_RESET) :=
      splitNl_joinNl hmapne hnlines
    refine ⟨⟨joinNl ((resizedGray.zip resizedRgb).map
      (fun gc => catLists ((gc.1.zip gc.2).map (colorCell cfg.chars)) ++ ANSI_RESET)),
      (calculate_dimensions cfg fw fh W H).1, (calculate_dimensions cfg fw fh W H).2, ts⟩,
      ?_, rfl, rfl, ?_, ?_⟩
    · simp only [frame_to_ascii, hcol, if_true]
      rw [hlines]
    · rw [hsplit]
      simp [hziplen]
    · intro l hl
      rw [hsplit] at hl
      obtain ⟨gc, hgc, rfl⟩ := List.mem_map.1 hl
      rw [visibleGlyphs_color_line hesc (gc.1.zip gc.2)]
      have h1 : gc.1.length = (calculate_dimensions cfg fw fh W H).1.toNat :=
        hg2 gc.1 (List.of_mem_zip ((Prod.mk.eta (p := gc)) ▸ hgc)).1
      have h2 : gc.2.length = (calculate_dimensions cfg fw fh W H).1.toNat :=
        hc2 gc.2 (List.of_mem_zip ((Prod.mk.eta (p := gc)) ▸ hgc)).2
      rw [List.length_zip, h1, h2, min_self]

/-- Witness for C3 at the end-to-end scenario: default converter, 16x9
source, terminal bounds (40, 9), hence a 32x9 output grid, in plain
mode on a uniformly black frame. -/
theorem frame_converter_shape_witness :
    ∃ af, frame_to_ascii defaultCfg 16 9 40 9 (List.replicate 9 (List.replicate 32 0))
        (List.replicate 9 (List.replicate 32 (0, 0, 0))) false 0 = .ok af ∧
      af.width = (calculate_dimensions defaultCfg 16 9 40 9).1 ∧
      af.height = (calculate_dimensions defaultCfg 16 9 40 9).2 ∧
      (splitNl af.content).length = (calculate_dimensions defaultCfg 16 9 40 9).2.toNat ∧
      ∀ l ∈ splitNl af.content,
        visibleGlyphs l = (calculate_dimensions defaultCfg 16 9 40 9).1.toNat :=
  frame_converter_shape defaultCfg 16 9 40 9 0 (List.replicate 9 (List.replicate 32 0))
    (List.replicate 9 (List.replicate 32 (0, 0, 0))) false
    (by norm_num) (by norm_num) (by norm_num) (by norm_num)
    (by intro a h2; simp [defaultCfg, mkConverter] at h2)
    (by intro x h2; simp [defaultCfg, mkConverter] at h2)
    (by intro x h2; simp [defaultCfg, mkConverter] at h2)
    (by decide)
    (by decide)
    (by norm_num [calculate_dimensions, effectiveAspect, defaultCfg, mkConverter,
      CHAR_ASPECT, pyInt]
        decide)
    (by intro row hrow
        rw [List.eq_of_mem_replicate hrow]
        norm_num [calculate_dimensions, effectiveAspect, defaultCfg, mkConverter,
          CHAR_ASPECT, pyInt]
        decide)
    (by intro row hrow v hv
        rw [List.eq_of_mem_replicate hrow] at hv
        rw [List.eq_of_mem_replicate hv]
        norm_num)
    (by norm_num [calculate_dimensions, effectiveAspect, defaultCfg, mkConverter,
      CHAR_ASPECT, pyInt]
        decide)
    (by intro row hrow
        rw [List.eq_of_mem_replicate hrow]
        norm_num [calculate_dimensions, effectiveAspect, defaultCfg, mkConverter,
          CHAR_ASPECT, pyInt]
        decide)
